import Mathlib

namespace MangleSerde

-- byte strings are lists of naturals, each byte < 256 where it matters

/-- Big-endian byte representation of the low `w` bytes of `n`
(models the Rust `to_be_bytes` family after an integer cast to a `w`-byte width). -/
def beBytes : Nat → Nat → List Nat
  | 0, _ => []
  | w + 1, n => beBytes w (n / 256) ++ [n % 256]

/-- Big-endian value of a byte list (models the Rust `from_be_bytes` family). -/
def beVal (bs : List Nat) : Nat :=
  bs.foldl (fun acc b => acc * 256 + b) 0

inductive DatumSize where
  | U8 | U16 | U32 | U64
deriving DecidableEq

inductive DatumType where
  | String | U32 | U64 | Map | Array
deriving DecidableEq

/-- Model of `DeserializationError` (src/lib.rs). Field names and messages are
byte strings. The payload of the UTF-8 and TOML wrapper variants is dropped. -/
inductive DeserializationError where
  | MissingField : List Nat → DeserializationError
  | InvalidType : List Nat → List Nat → List Nat → DeserializationError
  | NoMatch : List Nat → List Nat → DeserializationError
  | FromUTF8Error : DeserializationError
  | UnexpectedEOF : DeserializationError
  | TOMLError : DeserializationError
deriving DecidableEq

/-- Result of a Rust operation that can succeed, return a recoverable
`DeserializationError`, or abort the process (`todo!`, `unimplemented!`, a
mode-violation abort). -/
inductive RRes (α : Type) where
  | ok : α → RRes α
  | error : DeserializationError → RRes α
  | panic : RRes α
deriving DecidableEq

/-- Model of `toml::Value` as far as this crate observes it. Float and
Datetime payloads are irrelevant to the code under test and are dropped. -/
inductive TomlValue where
  | String : List Nat → TomlValue
  | Integer : Int → TomlValue
  | Float : TomlValue
  | Boolean : Bool → TomlValue
  | Datetime : TomlValue
  | Array : List TomlValue → TomlValue
  | Table : List (List Nat × TomlValue) → TomlValue

mutual

/-- Model of `Datum` (src/datum.rs). -/
inductive Datum where
  | String : List Nat → Datum
  | U32 : Nat → Datum
  | U64 : Nat → Datum
  | Map : MappedData → Datum
  | Array : ArrayData → Datum

/-- Model of `MappedData` (src/profiles/map.rs): the serializing flag plus the
mode payload. -/
inductive MappedData where
  | mk : Bool → SerdeMapData → MappedData

/-- Model of `SerdeData<HashMap<Datum, Datum>, dyn DatumMap>`. -/
inductive SerdeMapData where
  | Serializing : List (Datum × Datum) → SerdeMapData
  | Deserializing : DatumMapCap → SerdeMapData

/-- The `dyn DatumMap` capability object: the two implementations the crate
defines are the generic `HashMap` one (src/datum.rs, instantiated at string
keys and `Datum` values) and the TOML table one (src/toml.rs). -/
inductive DatumMapCap where
  | hashMap : List (List Nat × Datum) → DatumMapCap
  | tomlTable : List (List Nat × TomlValue) → DatumMapCap

/-- Model of `ArrayData` (src/profiles/array.rs). -/
inductive ArrayData where
  | mk : Bool → SerdeArrayData → ArrayData

/-- Model of `SerdeData<Vec<(Datum, DatumSize)>, dyn DatumArray>`. The only
`DatumArray` implementation in the crate is `Vec<u8>` (src/binary.rs), so the
deserializing capability is a byte buffer. -/
inductive SerdeArrayData where
  | Serializing : List (Datum × DatumSize) → SerdeArrayData
  | Deserializing : List Nat → SerdeArrayData

end

/-- Model of `Datum::get_type` (src/datum.rs). -/
def Datum.get_type : Datum → DatumType
  | .String _ => .String
  | .U32 _ => .U32
  | .U64 _ => .U64
  | .Map _ => .Map
  | .Array _ => .Array

/-- True on the three scalar variants of `Datum`. -/
def isScalar : Datum → Bool
  | .Map _ => false
  | .Array _ => false
  | _ => true

/-- Model of `impl PartialEq for Datum` (src/datum.rs lines 34-53): total on a
scalar receiver, `unimplemented!` when the receiver is a map or an array. -/
def datumEq : Datum → Datum → RRes Bool
  | .String x, o => .ok (match o with | .String y => x == y | _ => false)
  | .U32 x, o => .ok (match o with | .U32 y => x == y | _ => false)
  | .U64 x, o => .ok (match o with | .U64 y => x == y | _ => false)
  | .Map _, _ => .panic
  | .Array _, _ => .panic

/-- Model of `impl Clone for Datum` (src/datum.rs lines 59-70). -/
def cloneDatum : Datum → RRes Datum
  | .String x => .ok (.String x)
  | .U32 x => .ok (.U32 x)
  | .U64 x => .ok (.U64 x)
  | .Map _ => .panic
  | .Array _ => .panic

/-- Model of `impl Hash for Datum` (src/datum.rs lines 73-84): the bytes fed
to the hasher for a scalar (the exact hasher state is abstracted away as the
fed payload), `unimplemented!` on a map or an array. -/
def hashFeed : Datum → RRes (List Nat)
  | .String x => .ok x
  | .U32 x => .ok (beBytes 4 x)
  | .U64 x => .ok (beBytes 8 x)
  | .Map _ => .panic
  | .Array _ => .panic

/-- Decimal rendering of a natural, as ASCII bytes. -/
def decimalBytes (n : Nat) : List Nat :=
  (Nat.toDigits 10 n).map Char.toNat

/-- Model of `Datum::to_key_string` (src/datum.rs lines 286-296). -/
def toKeyString : Datum → RRes (List Nat)
  | .String s => .ok s
  | .U32 n => .ok (decimalBytes n)
  | .U64 n => .ok (decimalBytes n)
  | .Map _ => .panic
  | .Array _ => .panic

/-- Rust `char::escape_debug` on a single ASCII byte (bytes at or above 0x80,
which occur only inside multi-byte UTF-8 sequences, pass through unescaped,
matching the printable-character passthrough for the payloads in scope). -/
def debugEscapeByte (b : Nat) : List Nat :=
  if b = 34 then [92, 34]
  else if b = 92 then [92, 92]
  else if b = 10 then [92, 110]
  else if b = 13 then [92, 114]
  else if b = 9 then [92, 116]
  else if b = 0 then [92, 48]
  else if b < 32 || b = 127 then
    [92, 117, 123] ++ (Nat.toDigits 16 b).map Char.toNat ++ [125]
  else [b]

/-- The bytes of the derived `Debug` rendering of a `Datum`
(`String("...")`, `U32(n)`, `U64(n)`); for the composite variants, whose
derived rendering recurses into a boxed trait object, the rendering is
abstracted to the constructor name. -/
def datumDebugBytes : Datum → List Nat
  | .String s => [83, 116, 114, 105, 110, 103, 40, 34]
      ++ (s.map debugEscapeByte).flatten ++ [34, 41]
  | .U32 n => [85, 51, 50, 40] ++ decimalBytes n ++ [41]
  | .U64 n => [85, 54, 52, 40] ++ decimalBytes n ++ [41]
  | .Map _ => [77, 97, 112]
  | .Array _ => [65, 114, 114, 97, 121]

/-- Model of `DatumSize::into_byte_size` (src/datum.rs lines 107-114). -/
def DatumSize.into_byte_size : DatumSize → Nat
  | .U8 => 1
  | .U16 => 2
  | .U32 => 4
  | .U64 => 8

/-- Model of `DatumSize::serialize_usize` (src/datum.rs lines 116-123): cast
the length to the selected width (truncating) and emit its big-endian bytes. -/
def DatumSize.serialize_usize : DatumSize → Nat → List Nat
  | .U8, n => [n % 2 ^ 8]
  | .U16, n => beBytes 2 (n % 2 ^ 16)
  | .U32, n => beBytes 4 (n % 2 ^ 32)
  | .U64, n => beBytes 8 (n % 2 ^ 64)

mutual

/-- Model of `impl From<Datum> for Vec<u8>` (src/binary.rs lines 55-66):
string bytes raw, integers big-endian, `todo!` on a map, and recursive
positional encoding on an array. -/
def datumToBytes : Datum → RRes (List Nat)
  | .String x => .ok x
  | .U32 x => .ok (beBytes 4 x)
  | .U64 x => .ok (beBytes 8 x)
  | .Map _ => .panic
  | .Array (.mk _ (.Serializing items)) => encodeItems items
  | .Array (.mk _ (.Deserializing _)) => .panic

/-- Model of `impl ProfileToData<Vec<u8>> for ArrayData` (src/binary.rs lines
69-84): for each item in order, a string gets a length prefix at the item
width followed by its bytes, every other datum is appended raw. -/
def encodeItems : List (Datum × DatumSize) → RRes (List Nat)
  | [] => .ok []
  | (d, sz) :: rest =>
    match d.get_type with
    | .String =>
      match datumToBytes d with
      | .ok bytes =>
        match encodeItems rest with
        | .ok r => .ok (sz.serialize_usize bytes.length ++ (bytes ++ r))
        | .error e => .error e
        | .panic => .panic
      | .error e => .error e
      | .panic => .panic
    | _ =>
      match datumToBytes d with
      | .ok bytes =>
        match encodeItems rest with
        | .ok r => .ok (bytes ++ r)
        | .error e => .error e
        | .panic => .panic
      | .error e => .error e
      | .panic => .panic

end

/-- A UTF-8 continuation byte. -/
def isCont (b : Nat) : Bool := 128 ≤ b && b ≤ 191

/-- Standard UTF-8 validity of a byte string: models which byte vectors
`String::from_utf8` accepts. -/
def validUtf8 : List Nat → Bool
  | [] => true
  | b :: rest =>
    if b < 128 then validUtf8 rest
    else if 194 ≤ b && b ≤ 223 then
      match rest with
      | c1 :: r => isCont c1 && validUtf8 r
      | [] => false
    else if b = 224 then
      match rest with
      | c1 :: c2 :: r => (160 ≤ c1 && c1 ≤ 191) && isCont c2 && validUtf8 r
      | _ => false
    else if (225 ≤ b && b ≤ 236) || b = 238 || b = 239 then
      match rest with
      | c1 :: c2 :: r => isCont c1 && isCont c2 && validUtf8 r
      | _ => false
    else if b = 237 then
      match rest with
      | c1 :: c2 :: r => (128 ≤ c1 && c1 ≤ 159) && isCont c2 && validUtf8 r
      | _ => false
    else if b = 240 then
      match rest with
      | c1 :: c2 :: c3 :: r =>
          (144 ≤ c1 && c1 ≤ 191) && isCont c2 && isCont c3 && validUtf8 r
      | _ => false
    else if 241 ≤ b && b ≤ 243 then
      match rest with
      | c1 :: c2 :: c3 :: r => isCont c1 && isCont c2 && isCont c3 && validUtf8 r
      | _ => false
    else if b = 244 then
      match rest with
      | c1 :: c2 :: c3 :: r =>
          (128 ≤ c1 && c1 ≤ 143) && isCont c2 && isCont c3 && validUtf8 r
      | _ => false
    else false

/-- Model of `String::from_utf8`: the same bytes on success, or the wrapped
UTF-8 error. -/
def from_utf8 (s : List Nat) : Option (List Nat) :=
  if validUtf8 s then some s else none

/-- Model of both `split` and `split_arr` (src/binary.rs lines 6-25): detach
the first `sz` bytes of the buffer, or `None` when fewer remain. -/
def splitBytes (sz : Nat) (arr : List Nat) : Option (List Nat × List Nat) :=
  if arr.length < sz then none else some (arr.take sz, arr.drop sz)

/-- Model of `get_size` (src/binary.rs lines 28-36): an empty buffer fails;
otherwise read `datum_size` bytes as a big-endian unsigned length. -/
def get_size (arr : List Nat) (sz : DatumSize) : Option (Nat × List Nat) :=
  if arr.isEmpty then none
  else
    match sz with
    | .U8 =>
      match arr with
      | [] => none
      | b :: rest => some (b, rest)
    | .U16 =>
      match splitBytes 2 arr with
      | none => none
      | some (p, r) => some (beVal p, r)
    | .U32 =>
      match splitBytes 4 arr with
      | none => none
      | some (p, r) => some (beVal p, r)
    | .U64 =>
      match splitBytes 8 arr with
      | none => none
      | some (p, r) => some (beVal p, r)

/-- Model of `impl DatumArray for Vec<u8>::get_datum` (src/binary.rs lines
39-52): strings are length-prefixed then UTF-8 checked, `U64` is 8 raw
big-endian bytes, and every other requested kind hits `todo!`. -/
def get_datum (arr : List Nat) (ty : DatumType) (sz : DatumSize) :
    RRes (Datum × List Nat) :=
  match ty with
  | .String =>
    match get_size arr sz with
    | none => .error .UnexpectedEOF
    | some (len, rest) =>
      match splitBytes len rest with
      | none => .error .UnexpectedEOF
      | some (s, rest2) =>
        match from_utf8 s with
        | none => .error .FromUTF8Error
        | some t => .ok (.String t, rest2)
  | .U64 =>
    match splitBytes 8 arr with
    | none => .error .UnexpectedEOF
    | some (bs, rest) => .ok (.U64 (beVal bs), rest)
  | _ => .panic

/-- One `get_datum` call per declared field, front to back: the byte-buffer
consuming loop that a positional field declaration performs. -/
def decodeRecord : List (DatumType × DatumSize) → List Nat →
    RRes (List Datum × List Nat)
  | [], arr => .ok ([], arr)
  | (ty, sz) :: decls, arr =>
    match get_datum arr ty sz with
    | .ok (d, rest) =>
      match decodeRecord decls rest with
      | .ok (ds, fin) => .ok (d :: ds, fin)
      | .error e => .error e
      | .panic => .panic
    | .error e => .error e
    | .panic => .panic

/-- Remove the first entry with the given key from an association list
(models destructive `remove` on a backing map with unique keys). -/
def removeAssoc {α : Type} : List (List Nat × α) → List Nat →
    Option (α × List (List Nat × α))
  | [], _ => none
  | (k, v) :: rest, s =>
    if k == s then some (v, rest)
    else
      match removeAssoc rest s with
      | none => none
      | some (x, rest2) => some (x, (k, v) :: rest2)

/-- Model of `impl TryFrom<Datum> for String` (src/datum.rs lines 246-255):
the scalar conversion raises `InvalidType` with an empty field name, the
expected-type text `String` and the placeholder actual-type text `todo!`. -/
def stringTryFromDatum : Datum → RRes (List Nat)
  | .String s => .ok s
  | _ => .error (.InvalidType [] [83, 116, 114, 105, 110, 103] [116, 111, 100, 111, 33])

/-- Model of `impl TryFrom<Datum> for u64` (src/datum.rs lines 234-243):
expected-type text `u64`, placeholder actual-type text `todo!`, empty field. -/
def u64TryFromDatum : Datum → RRes Nat
  | .U64 n => .ok n
  | _ => .error (.InvalidType [] [117, 54, 52] [116, 111, 100, 111, 33])

/-- Model of `impl DatumMap for HashMap<K, V>::get_datum` (src/datum.rs lines
187-199) at `K = String`, `V = Datum`: clone the key datum (aborting on a
composite key), convert it to a string key, destructively remove the entry,
and report `MissingField` with the key text when absent. -/
def hashMapGetDatum (m : List (List Nat × Datum)) (key : Datum) :
    RRes (Datum × List (List Nat × Datum)) :=
  match cloneDatum key with
  | .panic => .panic
  | .error e => .error e
  | .ok kc =>
    match stringTryFromDatum kc with
    | .panic => .panic
    | .error e => .error e
    | .ok s =>
      match removeAssoc m s with
      | some (v, m2) => .ok (v, m2)
      | none =>
        match toKeyString key with
        | .ok ks => .error (.MissingField ks)
        | .error e => .error e
        | .panic => .panic

/-- Model of `impl TryFrom<toml::Value> for Datum` (src/toml.rs lines 65-80):
tables become consuming named containers, strings pass through, integers are
cast unchecked from `i64` to `u64`, and every other leaf hits `todo!`. -/
def tomlTryFromValue : TomlValue → RRes Datum
  | .Table t => .ok (.Map (.mk false (.Deserializing (.tomlTable t))))
  | .String s => .ok (.String s)
  | .Integer n => .ok (.U64 ((n % (2 ^ 64 : Int)).toNat))
  | _ => .panic

/-- Model of `impl DatumMap for toml::Table::get_datum` (src/toml.rs lines
10-17), the key arriving as a datum through the trait object: remove the
entry for the key text, convert the TOML value, report `MissingField` when
absent. -/
def tomlTableGetDatum (t : List (List Nat × TomlValue)) (key : Datum) :
    RRes (Datum × List (List Nat × TomlValue)) :=
  match toKeyString key with
  | .panic => .panic
  | .error e => .error e
  | .ok s =>
    match removeAssoc t s with
    | none => .error (.MissingField s)
    | some (x, t2) =>
      match tomlTryFromValue x with
      | .ok d => .ok (d, t2)
      | .error e => .error e
      | .panic => .panic

/-- Replace the value stored under an equal key, or append the new entry
(models `HashMap::insert`, which hashes the key — aborting on a composite
key — and then compares it against stored keys). -/
def replaceAssocD : List (Datum × Datum) → Datum → Datum →
    RRes (List (Datum × Datum))
  | [], k, v => .ok [(k, v)]
  | (k0, v0) :: rest, k, v =>
    match datumEq k k0 with
    | .panic => .panic
    | .error e => .error e
    | .ok true => .ok ((k0, v) :: rest)
    | .ok false =>
      match replaceAssocD rest k v with
      | .ok r => .ok ((k0, v0) :: r)
      | .error e => .error e
      | .panic => .panic

/-- Model of `SerdeMap::set` (src/profiles/map.rs lines 20-25): aborts while
deserializing, otherwise inserts into the backing map. -/
def mapSet (s : SerdeMapData) (k v : Datum) : RRes SerdeMapData :=
  match s with
  | .Deserializing _ => .panic
  | .Serializing xs =>
    match hashFeed k with
    | .panic => .panic
    | _ =>
      match replaceAssocD xs k v with
      | .ok r => .ok (.Serializing r)
      | .error e => .error e
      | .panic => .panic

/-- Model of `SerdeMap::get` (src/profiles/map.rs lines 27-32): aborts while
serializing, otherwise pulls from the capability object. -/
def mapGet (s : SerdeMapData) (key : Datum) : RRes (Datum × SerdeMapData) :=
  match s with
  | .Serializing _ => .panic
  | .Deserializing (.hashMap m) =>
    match hashMapGetDatum m key with
    | .ok (v, m2) => .ok (v, .Deserializing (.hashMap m2))
    | .error e => .error e
    | .panic => .panic
  | .Deserializing (.tomlTable t) =>
    match tomlTableGetDatum t key with
    | .ok (v, t2) => .ok (v, .Deserializing (.tomlTable t2))
    | .error e => .error e
    | .panic => .panic

/-- Model of `DeserializationError::set_field` (src/lib.rs lines 81-90). -/
def setField : DeserializationError → List Nat → DeserializationError
  | .MissingField f, _ => .MissingField f
  | .InvalidType _ e a, ks => .InvalidType ks e a
  | .NoMatch _ a, ks => .NoMatch ks a
  | .FromUTF8Error, _ => .FromUTF8Error
  | .UnexpectedEOF, _ => .UnexpectedEOF
  | .TOMLError, _ => .TOMLError

/-- Model of `MappedData::into_serialized_entries` (src/profiles/map.rs lines
65-70). -/
def MappedData.into_serialized_entries : MappedData → RRes (List (Datum × Datum))
  | .mk _ (.Serializing xs) => .ok xs
  | .mk _ (.Deserializing _) => .panic

/-- Model of `ArrayData::into_serialized_items` (src/profiles/array.rs lines
64-69). -/
def ArrayData.into_serialized_items : ArrayData → RRes (List (Datum × DatumSize))
  | .mk _ (.Serializing xs) => .ok xs
  | .mk _ (.Deserializing _) => .panic

/-- Model of `MappedData::deserialize_entry` (src/profiles/map.rs lines
78-87), generic over the slot conversion `V: TryFrom<Datum>`: pull the value
for the key, convert it, and attach the key text to a conversion error via
`TransformResult::transform` (whose key-text argument is computed even on the
success path). -/
def deserialize_entry {V : Type} (tryFromV : Datum → RRes V)
    (md : MappedData) (name : Datum) : RRes (V × MappedData) :=
  match md with
  | .mk ser data =>
    match mapGet data name with
    | .panic => .panic
    | .error e => .error e
    | .ok (v, data2) =>
      match tryFromV v with
      | .panic => .panic
      | r =>
        match toKeyString name with
        | .panic => .panic
        | .error e2 => .error e2
        | .ok ks =>
          match r with
          | .ok x => .ok (x, .mk ser data2)
          | .error e => .error (setField e ks)
          | .panic => .panic

/-- The candidate scan of the matched-entry operations: first candidate equal
to the pulled item wins, in list order. -/
def findFirst {V : Type} (eqV : V → Datum → Bool) : List V → Datum → Option V
  | [], _ => none
  | c :: rest, item => if eqV c item then some c else findFirst eqV rest item

/-- Model of `MappedData::deserialize_matched_entry` (src/profiles/map.rs
lines 90-110), generic over the slot type `V: PartialEq<Datum>`: pull the
value for the key, linearly scan the candidates, and on no match fail with
`NoMatch` carrying the key text and the `writeln!`-rendered debug text of the
pulled value (the debug rendering followed by a newline byte). -/
def deserialize_matched_entry {V : Type} (eqV : V → Datum → Bool)
    (md : MappedData) (name : Datum) (cands : List V) : RRes (V × MappedData) :=
  match md with
  | .mk ser data =>
    match mapGet data name with
    | .panic => .panic
    | .error e => .error e
    | .ok (item, data2) =>
      match findFirst eqV cands item with
      | some c => .ok (c, .mk ser data2)
      | none =>
        match toKeyString name with
        | .panic => .panic
        | .error e2 => .error e2
        | .ok ks => .error (.NoMatch ks (datumDebugBytes item ++ [10]))

/-- Model of `impl PartialEq<Datum> for &str` (src/datum.rs lines 141-149). -/
def strEqDatum (s : List Nat) (d : Datum) : Bool :=
  match d with
  | .String t => s == t
  | _ => false

/-- Model of `SerdeArray::push_item_sized` (src/profiles/array.rs lines
16-21): aborts while deserializing, otherwise appends the item with its
width. -/
def push_item_sized (s : SerdeArrayData) (d : Datum) (sz : DatumSize) :
    RRes SerdeArrayData :=
  match s with
  | .Deserializing _ => .panic
  | .Serializing xs => .ok (.Serializing (xs ++ [(d, sz)]))

/-- Model of `SerdeArray::get_item_sized` (src/profiles/array.rs lines
25-30): aborts while serializing, otherwise pulls the next value of the
declared kind and width from the byte-buffer capability. -/
def get_item_sized (s : SerdeArrayData) (ty : DatumType) (sz : DatumSize) :
    RRes (Datum × SerdeArrayData) :=
  match s with
  | .Serializing _ => .panic
  | .Deserializing arr =>
    match get_datum arr ty sz with
    | .ok (d, rest) => .ok (d, .Deserializing rest)
    | .error e => .error e
    | .panic => .panic

/-- A record item is a scalar wire item: a text datum whose bytes form valid
UTF-8 (the invariant of a Rust `String`) and whose length fits the declared
width, or a 64-bit unsigned datum in range. -/
def scalarItemOk : Datum × DatumSize → Bool
  | (.String s, sz) => validUtf8 s && decide (s.length < 256 ^ sz.into_byte_size)
  | (.U64 n, _) => decide (n < 2 ^ 64)
  | _ => false

-- ### Helper lemmas

theorem beBytes_length (w n : Nat) : (beBytes w n).length = w := by
  induction w generalizing n with
  | zero => rfl
  | succ w ih => simp [beBytes, ih]

theorem beVal_append_one (xs : List Nat) (b : Nat) :
    beVal (xs ++ [b]) = beVal xs * 256 + b := by
  simp [beVal, List.foldl_append]

theorem beVal_beBytes (w n : Nat) : beVal (beBytes w n) = n % 256 ^ w := by
  induction w generalizing n with
  | zero => simp [beBytes, beVal, Nat.mod_one]
  | succ w ih =>
    rw [beBytes, beVal_append_one, ih, pow_succ', Nat.mod_mul]
    ring

theorem splitBytes_append (sz : Nat) (xs rest : List Nat) (h : xs.length = sz) :
    splitBytes sz (xs ++ rest) = some (xs, rest) := by
  subst h
  simp [splitBytes, List.take_left, List.drop_left]

theorem isEmpty_false_of_length_pos (l : List Nat) (h : 0 < l.length) :
    l.isEmpty = false := by
  cases l with
  | nil => simp at h
  | cons a l => rfl

theorem get_size_ok (sz : DatumSize) (L : Nat) (rest : List Nat)
    (hL : L < 256 ^ sz.into_byte_size) :
    get_size (sz.serialize_usize L ++ rest) sz = some (L, rest) := by
  cases sz with
  | U8 =>
    have hb : L < 256 ^ 1 := by simpa [DatumSize.into_byte_size] using hL
    simp only [DatumSize.serialize_usize, get_size, List.cons_append,
      List.isEmpty_cons]
    simp
    omega
  | U16 =>
    have hb : L < 256 ^ 2 := by simpa [DatumSize.into_byte_size] using hL
    have hm : L % 2 ^ 16 = L := Nat.mod_eq_of_lt (by omega)
    rw [DatumSize.serialize_usize, hm, get_size]
    rw [isEmpty_false_of_length_pos _ (by simp [beBytes_length])]
    rw [splitBytes_append 2 _ _ (beBytes_length 2 L)]
    simp [beVal_beBytes]
    omega
  | U32 =>
    have hb : L < 256 ^ 4 := by simpa [DatumSize.into_byte_size] using hL
    have hm : L % 2 ^ 32 = L := Nat.mod_eq_of_lt (by omega)
    rw [DatumSize.serialize_usize, hm, get_size]
    rw [isEmpty_false_of_length_pos _ (by simp [beBytes_length])]
    rw [splitBytes_append 4 _ _ (beBytes_length 4 L)]
    simp [beVal_beBytes]
    omega
  | U64 =>
    have hb : L < 256 ^ 8 := by simpa [DatumSize.into_byte_size] using hL
    have hm : L % 2 ^ 64 = L := Nat.mod_eq_of_lt (by omega)
    rw [DatumSize.serialize_usize, hm, get_size]
    rw [isEmpty_false_of_length_pos _ (by simp [beBytes_length])]
    rw [splitBytes_append 8 _ _ (beBytes_length 8 L)]
    simp [beVal_beBytes]
    omega

theorem get_datum_string (sz : DatumSize) (s rest : List Nat)
    (hv : validUtf8 s = true) (hl : s.length < 256 ^ sz.into_byte_size) :
    get_datum (sz.serialize_usize s.length ++ (s ++ rest)) .String sz =
      .ok (.String s, rest) := by
  simp only [get_datum, get_size_ok sz s.length (s ++ rest) hl,
    splitBytes_append s.length s rest rfl, from_utf8, hv, if_true]

theorem get_datum_u64 (sz : DatumSize) (n : Nat) (rest : List Nat)
    (hn : n < 2 ^ 64) :
    get_datum (beBytes 8 n ++ rest) .U64 sz = .ok (.U64 n, rest) := by
  rw [get_datum, splitBytes_append 8 _ _ (beBytes_length 8 n)]
  simp [beVal_beBytes]
  omega

theorem get_type_String_eq (s : List Nat) :
    (Datum.String s).get_type = DatumType.String := rfl

theorem get_type_U64_eq (n : Nat) :
    (Datum.U64 n).get_type = DatumType.U64 := rfl

theorem encode_decode_aux (items : List (Datum × DatumSize)) (tail : List Nat)
    (h : items.all scalarItemOk = true) :
    ∃ buf, encodeItems items = .ok buf ∧
      decodeRecord (items.map fun p => (p.1.get_type, p.2)) (buf ++ tail) =
        .ok (items.map Prod.fst, tail) := by
  induction items generalizing tail with
  | nil =>
    exact ⟨[], by simp [encodeItems], by simp [decodeRecord]⟩
  | cons p rest ih =>
    obtain ⟨d, sz⟩ := p
    simp only [List.all_cons, Bool.and_eq_true] at h
    obtain ⟨hd, hrest⟩ := h
    cases d with
    | String s =>
      simp only [scalarItemOk, Bool.and_eq_true, decide_eq_true_eq] at hd
      obtain ⟨hv, hl⟩ := hd
      obtain ⟨buf2, henc, hdec⟩ := ih tail hrest
      refine ⟨sz.serialize_usize s.length ++ (s ++ buf2), ?_, ?_⟩
      · simp [encodeItems, datumToBytes, Datum.get_type, henc]
      · simp only [List.map_cons, get_type_String_eq, decodeRecord, List.append_assoc]
        rw [get_datum_string sz s (buf2 ++ tail) hv hl]
        simp [hdec]
    | U64 n =>
      simp only [scalarItemOk, decide_eq_true_eq] at hd
      obtain ⟨buf2, henc, hdec⟩ := ih tail hrest
      refine ⟨beBytes 8 n ++ buf2, ?_, ?_⟩
      · simp [encodeItems, datumToBytes, Datum.get_type, henc]
      · simp only [List.map_cons, get_type_U64_eq, decodeRecord, List.append_assoc]
        rw [get_datum_u64 sz n (buf2 ++ tail) hd]
        simp [hdec]
    | U32 n => simp [scalarItemOk] at hd
    | Map m => simp [scalarItemOk] at hd
    | Array a => simp [scalarItemOk] at hd

theorem get_size_none (sz : DatumSize) (arr : List Nat)
    (h : arr.length < sz.into_byte_size) : get_size arr sz = none := by
  cases sz with
  | U8 =>
    have hnil : arr = [] := by
      cases arr with
      | nil => rfl
      | cons a l => simp [DatumSize.into_byte_size] at h
    subst hnil; rfl
  | U16 =>
    simp [DatumSize.into_byte_size] at h
    have hs : splitBytes 2 arr = none := by unfold splitBytes; rw [if_pos (by omega)]
    by_cases he : arr.isEmpty <;> simp [get_size, he, hs]
  | U32 =>
    simp [DatumSize.into_byte_size] at h
    have hs : splitBytes 4 arr = none := by unfold splitBytes; rw [if_pos (by omega)]
    by_cases he : arr.isEmpty <;> simp [get_size, he, hs]
  | U64 =>
    simp [DatumSize.into_byte_size] at h
    have hs : splitBytes 8 arr = none := by unfold splitBytes; rw [if_pos (by omega)]
    by_cases he : arr.isEmpty <;> simp [get_size, he, hs]

theorem get_size_beVal (sz : DatumSize) (pre2 rest : List Nat)
    (h : pre2.length = sz.into_byte_size) :
    get_size (pre2 ++ rest) sz = some (beVal pre2, rest) := by
  cases sz with
  | U8 =>
    simp [DatumSize.into_byte_size] at h
    obtain ⟨b, rfl⟩ := List.length_eq_one.mp h
    simp [get_size, beVal]
  | U16 =>
    simp [DatumSize.into_byte_size] at h
    rw [get_size, isEmpty_false_of_length_pos _ (by simp [List.length_append]; omega),
      splitBytes_append 2 _ _ h]
    simp
  | U32 =>
    simp [DatumSize.into_byte_size] at h
    rw [get_size, isEmpty_false_of_length_pos _ (by simp [List.length_append]; omega),
      splitBytes_append 4 _ _ h]
    simp
  | U64 =>
    simp [DatumSize.into_byte_size] at h
    rw [get_size, isEmpty_false_of_length_pos _ (by simp [List.length_append]; omega),
      splitBytes_append 8 _ _ h]
    simp

theorem mapGet_hashMap_string (m m2 : List (List Nat × Datum)) (s : List Nat)
    (item : Datum) (hrem : removeAssoc m s = some (item, m2)) :
    mapGet (.Deserializing (.hashMap m)) (.String s) =
      .ok (item, .Deserializing (.hashMap m2)) := by
  simp [mapGet, hashMapGetDatum, cloneDatum, stringTryFromDatum, hrem]

theorem findFirst_first {V : Type} (eqV : V → Datum → Bool) (front : List V)
    (c : V) (back : List V) (item : Datum)
    (hfront : ∀ x ∈ front, eqV x item = false) (hc : eqV c item = true) :
    findFirst eqV (front ++ c :: back) item = some c := by
  induction front with
  | nil => simp [findFirst, hc]
  | cons a front ih =>
    have ha : eqV a item = false := hfront a (by simp)
    simp only [List.cons_append, findFirst, ha, Bool.false_eq_true, if_false]
    exact ih fun x hx => hfront x (by simp [hx])

theorem findFirst_none {V : Type} (eqV : V → Datum → Bool) (cands : List V)
    (item : Datum) (h : ∀ x ∈ cands, eqV x item = false) :
    findFirst eqV cands item = none := by
  induction cands with
  | nil => rfl
  | cons a cands ih =>
    have ha : eqV a item = false := h a (by simp)
    simp only [findFirst, ha, Bool.false_eq_true, if_false]
    exact ih fun x hx => h x (by simp [hx])

-- ### Claims

/-- Claim C1: for every record of text and 64-bit-unsigned items, each text
item carrying valid UTF-8 bytes whose length is representable at its declared
width, binary decoding of the binary encoding with the matching positional
declaration returns exactly the original datums, consuming the whole
buffer. -/
theorem c1_binary_roundtrip (items : List (Datum × DatumSize))
    (h : items.all scalarItemOk = true) :
    ∃ buf, encodeItems items = RRes.ok buf ∧
      decodeRecord (items.map fun p => (p.1.get_type, p.2)) buf =
        RRes.ok (items.map Prod.fst, []) := by
  obtain ⟨buf, hb1, hb2⟩ := encode_decode_aux items [] h
  exact ⟨buf, hb1, by simpa using hb2⟩

theorem c1_witness :
    ∃ buf,
      encodeItems [(Datum.U64 52, DatumSize.U32),
        (Datum.String [103, 97, 110, 103, 110, 97, 109], DatumSize.U32)] =
        RRes.ok buf ∧
      decodeRecord
        (([(Datum.U64 52, DatumSize.U32),
          (Datum.String [103, 97, 110, 103, 110, 97, 109],
            DatumSize.U32)]).map fun p => (p.1.get_type, p.2)) buf =
        RRes.ok (([(Datum.U64 52, DatumSize.U32),
          (Datum.String [103, 97, 110, 103, 110, 97, 109],
            DatumSize.U32)]).map Prod.fst, []) :=
  c1_binary_roundtrip _ (by decide)

/-- Claim C2: the record with a 64-bit-unsigned 52 (any declared width) and
the text `gangnam` at width 4 encodes positionally to exactly the expected 19
bytes: 8 big-endian bytes for the integer with no length prefix, then a
4-byte big-endian length 7, then the 7 ASCII bytes of the text. -/
theorem c2_concrete_layout (sz : DatumSize) :
    encodeItems [(Datum.U64 52, sz),
      (Datum.String [103, 97, 110, 103, 110, 97, 109], DatumSize.U32)] =
    RRes.ok [0, 0, 0, 0, 0, 0, 0, 52, 0, 0, 0, 7,
      103, 97, 110, 103, 110, 97, 109] := by
  cases sz <;>
    simp [encodeItems, datumToBytes, Datum.get_type, DatumSize.serialize_usize] <;>
    decide

/-- Claim C3: decoding a text value first reads the width bytes as a
big-endian length (UnexpectedEOF when the buffer is shorter than the width),
then reads exactly that many payload bytes (UnexpectedEOF when fewer remain);
the witness instantiates the 8-byte buffer declaring 7 payload bytes but
supplying only the 4 bytes of `gang`. -/
theorem c3_text_decode_eof (sz : DatumSize) (buf pre2 rest : List Nat) :
    (buf.length < sz.into_byte_size →
      get_datum buf .String sz = .error .UnexpectedEOF)
  ∧ (pre2.length = sz.into_byte_size →
      get_size (pre2 ++ rest) sz = some (beVal pre2, rest))
  ∧ (pre2.length = sz.into_byte_size → rest.length < beVal pre2 →
      get_datum (pre2 ++ rest) .String sz = .error .UnexpectedEOF) := by
  refine ⟨?_, ?_, ?_⟩
  · intro h
    simp only [get_datum, get_size_none sz buf h]
  · intro h
    exact get_size_beVal sz pre2 rest h
  · intro h1 h2
    have hs : splitBytes (beVal pre2) rest = none := by
      unfold splitBytes; rw [if_pos h2]
    simp only [get_datum, get_size_beVal sz pre2 rest h1, hs]

theorem c3_witness :
    get_datum ([0, 0, 0, 7] ++ [103, 97, 110, 103]) .String .U32 =
      .error .UnexpectedEOF :=
  (c3_text_decode_eof .U32 [] [0, 0, 0, 7] [103, 97, 110, 103]).2.2 rfl
    (by decide)

/-- Claim C4 counterexample: encoding an `UnsignedSmall` value does not abort
and does not error; it silently emits the 4 big-endian bytes of the value,
refuting the claim that all of `UnsignedSmall`, `Mapping`, `Sequence` fail
loudly on the encode side. -/
theorem c4_counterexample : datumToBytes (Datum.U32 5) = RRes.ok [0, 0, 0, 5] := by
  simp [datumToBytes]
  decide

/-- Claim C4 (amended): decoding a request for `UnsignedSmall`, `Mapping` or
`Sequence` aborts (`todo!`); encoding a `Mapping` aborts, as does encoding a
consuming-mode `Sequence`; but encoding an `UnsignedSmall` silently emits its
4 big-endian bytes and encoding a producing-mode `Sequence` recursively
encodes its items — only `Text` and `UnsignedLarge` have decode rules. -/
theorem c4_unsupported_kinds (sz : DatumSize) (buf : List Nat)
    (md : MappedData) (n : Nat) (items : List (Datum × DatumSize))
    (cap : List Nat) (b : Bool) :
    get_datum buf .U32 sz = .panic
  ∧ get_datum buf .Map sz = .panic
  ∧ get_datum buf .Array sz = .panic
  ∧ datumToBytes (.Map md) = .panic
  ∧ datumToBytes (.U32 n) = .ok (beBytes 4 n)
  ∧ datumToBytes (.Array (.mk b (.Serializing items))) = encodeItems items
  ∧ datumToBytes (.Array (.mk b (.Deserializing cap))) = .panic := by
  refine ⟨rfl, rfl, rfl, ?_, ?_, ?_, ?_⟩ <;> simp [datumToBytes]

/-- Claim C5 (amended): the matched-entry deserialization pulls the value for
the key, scans the candidates in order and moves the first structurally equal
one into the slot; when no candidate matches it fails with `NoMatch` carrying
the key and the debug rendering of the pulled value followed by a newline
(the `writeln!` output), not the bare payload text. -/
theorem c5_matched_entry (V : Type) (eqV : V → Datum → Bool) (ser : Bool)
    (m m2 : List (List Nat × Datum)) (s : List Nat) (item : Datum)
    (cands : List V) (hrem : removeAssoc m s = some (item, m2)) :
    (∀ front c back, cands = front ++ c :: back →
      (∀ x ∈ front, eqV x item = false) → eqV c item = true →
      deserialize_matched_entry eqV (.mk ser (.Deserializing (.hashMap m)))
        (.String s) cands = .ok (c, .mk ser (.Deserializing (.hashMap m2))))
  ∧ ((∀ x ∈ cands, eqV x item = false) →
      deserialize_matched_entry eqV (.mk ser (.Deserializing (.hashMap m)))
        (.String s) cands =
        .error (.NoMatch s (datumDebugBytes item ++ [10]))) := by
  constructor
  · intro front c back hc hfront heq
    subst hc
    simp [deserialize_matched_entry, mapGet_hashMap_string m m2 s item hrem,
      findFirst_first eqV front c back item hfront heq]
  · intro hnone
    simp [deserialize_matched_entry, mapGet_hashMap_string m m2 s item hrem,
      findFirst_none eqV cands item hnone, toKeyString]

/-- Claim C5 counterexample: with candidates `a`, `b` and pulled value `c`
under key `k`, the error is `NoMatch` whose actual text is the debug
rendering `String("c")` plus a newline — not the bare text `c` the claim
states. -/
theorem c5_counterexample :
    (deserialize_matched_entry strEqDatum
        (MappedData.mk false (.Deserializing (.hashMap
          [([107], Datum.String [99])])))
        (Datum.String [107]) [[97], [98]] =
      RRes.error (.NoMatch [107]
        [83, 116, 114, 105, 110, 103, 40, 34, 99, 34, 41, 10]))
  ∧ [83, 116, 114, 105, 110, 103, 40, 34, 99, 34, 41, 10] ≠ [99] :=
  ⟨rfl, by decide⟩

theorem c5_witness :
    deserialize_matched_entry strEqDatum
      (MappedData.mk false (.Deserializing (.hashMap
        [([107], Datum.String [99])])))
      (Datum.String [107]) [[97], [98]] =
      RRes.error (.NoMatch [107] (datumDebugBytes (Datum.String [99]) ++ [10])) :=
  (c5_matched_entry (List Nat) strEqDatum false [([107], Datum.String [99])]
    [] [107] (Datum.String [99]) [[97], [98]] rfl).2 (by decide)

/-- Claim C6: the consuming named take pulls the value for the key —
`MissingField` naming the key when absent, `InvalidType` carrying the key
(attached by the accessor, the scalar conversion itself leaving the field
empty) when the stored kind differs from the slot type, and the converted
value on success. -/
theorem c6_take_entry (ser : Bool) (m : List (List Nat × Datum))
    (s : List Nat) :
    (removeAssoc m s = none →
      deserialize_entry u64TryFromDatum
        (.mk ser (.Deserializing (.hashMap m))) (.String s) =
        .error (.MissingField s))
  ∧ (∀ v m2, removeAssoc m s = some (v, m2) → (∀ k, v ≠ Datum.U64 k) →
      deserialize_entry u64TryFromDatum
        (.mk ser (.Deserializing (.hashMap m))) (.String s) =
        .error (.InvalidType s [117, 54, 52] [116, 111, 100, 111, 33]))
  ∧ (∀ n m2, removeAssoc m s = some (Datum.U64 n, m2) →
      deserialize_entry u64TryFromDatum
        (.mk ser (.Deserializing (.hashMap m))) (.String s) =
        .ok (n, .mk ser (.Deserializing (.hashMap m2))))
  ∧ (∀ v, (∀ k, v ≠ Datum.U64 k) →
      u64TryFromDatum v =
        .error (.InvalidType [] [117, 54, 52] [116, 111, 100, 111, 33])) := by
  have hconv : ∀ v : Datum, (∀ k, v ≠ Datum.U64 k) →
      u64TryFromDatum v =
        .error (.InvalidType [] [117, 54, 52] [116, 111, 100, 111, 33]) := by
    intro v hv
    cases v with
    | U64 k => exact absurd rfl (hv k)
    | String x => rfl
    | U32 x => rfl
    | Map x => rfl
    | Array x => rfl
  refine ⟨?_, ?_, ?_, hconv⟩
  · intro hrem
    simp [deserialize_entry, mapGet, hashMapGetDatum, cloneDatum,
      stringTryFromDatum, hrem, toKeyString]
  · intro v m2 hrem hv
    simp [deserialize_entry, mapGet_hashMap_string m m2 s v hrem,
      hconv v hv, toKeyString, setField]
  · intro n m2 hrem
    simp [deserialize_entry, mapGet_hashMap_string m m2 s (Datum.U64 n) hrem,
      u64TryFromDatum, toKeyString]

theorem c6_witness :
    deserialize_entry u64TryFromDatum
      (MappedData.mk false (.Deserializing (.hashMap [])))
      (Datum.String [97, 103, 101]) =
      RRes.error (.MissingField [97, 103, 101]) :=
  (c6_take_entry false [] [97, 103, 101]).1 rfl

/-- Claim C7: structural equality, duplication and hashing are total on
scalar receivers — with equality holding exactly between equal scalars — and
abort on a map or array receiver. -/
theorem c7_scalar_ops (d1 d2 e o : Datum) (h1 : isScalar d1 = true)
    (h2 : isScalar d2 = true) (h3 : isScalar e = false) :
    (datumEq d1 d2 = .ok true ↔ d1 = d2)
  ∧ (∃ b, datumEq d1 d2 = .ok b)
  ∧ cloneDatum d1 = .ok d1
  ∧ (∃ bs, hashFeed d1 = .ok bs)
  ∧ datumEq e o = .panic
  ∧ cloneDatum e = .panic
  ∧ hashFeed e = .panic := by
  refine ⟨?_, ?_, ?_, ?_, ?_, ?_, ?_⟩
  · cases d1 <;> cases d2 <;> simp_all [datumEq, isScalar]
  · cases d1 <;> simp_all [datumEq, isScalar]
  · cases d1 <;> simp_all [cloneDatum, isScalar]
  · cases d1 <;> simp_all [hashFeed, isScalar]
  · cases e <;> simp_all [datumEq, isScalar]
  · cases e <;> simp_all [cloneDatum, isScalar]
  · cases e <;> simp_all [hashFeed, isScalar]

theorem c7_witness :
    (datumEq (Datum.String [97]) (Datum.String [97]) = RRes.ok true ↔
        Datum.String [97] = Datum.String [97])
  ∧ cloneDatum (Datum.String [97]) = RRes.ok (Datum.String [97])
  ∧ datumEq (Datum.Map (MappedData.mk true (.Serializing []))) (Datum.U32 0) =
      RRes.panic
  ∧ cloneDatum (Datum.Map (MappedData.mk true (.Serializing []))) = RRes.panic
  ∧ hashFeed (Datum.Map (MappedData.mk true (.Serializing []))) = RRes.panic := by
  have h := c7_scalar_ops (Datum.String [97]) (Datum.String [97])
    (Datum.Map (MappedData.mk true (.Serializing []))) (Datum.U32 0) rfl rfl rfl
  exact ⟨h.1, h.2.2.1, h.2.2.2.2.1, h.2.2.2.2.2.1, h.2.2.2.2.2.2⟩

/-- Claim C8: every producing-only operation aborts on a consuming container
(insert entry, push item, drain entries, drain items) and every
consuming-only operation aborts on a producing container (pull by key, pull
by position). -/
theorem c8_mode_violation (capM : DatumMapCap) (buf : List Nat)
    (m : List (Datum × Datum)) (items : List (Datum × DatumSize))
    (k v d : Datum) (ty : DatumType) (sz : DatumSize) (b : Bool) :
    mapSet (.Deserializing capM) k v = .panic
  ∧ mapGet (.Serializing m) k = .panic
  ∧ push_item_sized (.Deserializing buf) d sz = .panic
  ∧ get_item_sized (.Serializing items) ty sz = .panic
  ∧ MappedData.into_serialized_entries (.mk b (.Deserializing capM)) = .panic
  ∧ ArrayData.into_serialized_items (.mk b (.Deserializing buf)) = .panic :=
  ⟨rfl, rfl, rfl, rfl, rfl, rfl⟩

/-- Claim C9: for every width and every length, the length-prefix encoder
emits exactly width-many bytes — the big-endian representation of the length
reduced modulo 2 to the 8-times-width — and in particular never fails, even
for lengths exceeding the representable range. -/
theorem c9_length_encoding (sz : DatumSize) (n : Nat) :
    (sz.serialize_usize n).length = sz.into_byte_size
  ∧ sz.serialize_usize n = beBytes sz.into_byte_size (n % 256 ^ sz.into_byte_size)
  ∧ beVal (sz.serialize_usize n) = n % 256 ^ sz.into_byte_size := by
  cases sz <;> refine ⟨?_, ?_, ?_⟩ <;>
    simp [DatumSize.serialize_usize, DatumSize.into_byte_size, beBytes_length,
      beVal_beBytes, beBytes, beVal] <;> omega

/-- Claim C10: every TOML integer leaf converts by an unchecked cast to the
64-bit unsigned value congruent modulo 2 to the 64, never erroring; a
negative integer wraps to 2 to the 64 plus the integer. -/
theorem c10_toml_integer_wrap (n : Int) (h1 : -(2 ^ 63) ≤ n) (h2 : n < 2 ^ 63) :
    tomlTryFromValue (.Integer n) = .ok (.U64 ((n % (2 ^ 64 : Int)).toNat))
  ∧ (n % (2 ^ 64 : Int)).toNat < 2 ^ 64
  ∧ (n < 0 → ((n % (2 ^ 64 : Int)).toNat : Int) = n + 2 ^ 64) := by
  refine ⟨rfl, ?_, ?_⟩
  · omega
  · intro hneg; omega

theorem c10_witness :
    tomlTryFromValue (TomlValue.Integer (-1)) =
      RRes.ok (Datum.U64 18446744073709551615) := by
  have h := (c10_toml_integer_wrap (-1) (by norm_num) (by norm_num)).1
  rw [h]
  rfl

end MangleSerde
